import Mathlib

/-!
Shallow embedding of `src/streamlit_app.py` (CIPW normative minerals
calculator) and verification of the spec's claims about it.

Conventions of the embedding:
* Python floats are modelled as exact rationals (`ℚ`); decimal literals such
  as `159.69` denote the corresponding exact rational.
* A Python `dict` is modelled as an association list (`List (key × value)`):
  insertion order is preserved, `d.get(k, default)` is lookup-with-default.
* `round(x, 4)` is modelled by `round4` below, rounding to four decimal
  places (the tie-breaking rule is immaterial to every bound proved here:
  any rounding within half an ulp satisfies them).
-/

/-- An oxide composition: a mapping from oxide symbols to weight percents,
as passed to `calculate_cipw` (missing keys default to `0.0`). -/
abbrev Oxides := List (String × ℚ)

/-- `oxides.get(k, 0.0)` of the source (lines 44–53): look up key `k`,
defaulting to `0`. -/
def getOx (m : Oxides) (k : String) : ℚ :=
  (m.lookup k).getD 0

/-- Molar mass of Fe2O3 (line 40 of the source). -/
def MW_FE2O3 : ℚ := 159.69

/-- Molar mass of FeO (line 41 of the source). -/
def MW_FEO : ℚ := 71.844

/-- Rounding to 4 decimal places, as `round(x, 4)` at line 71. -/
def round4 (q : ℚ) : ℚ :=
  (round (q * 10000) : ℚ) / 10000

/-- Iron speciation fallback (lines 55–56): `if FeO <= 0 and Fe2O3 > 0:
FeO = Fe2O3 * ((2 * MW_FEO) / MW_FE2O3)`. -/
def imputeFeO (FeO Fe2O3 : ℚ) : ℚ :=
  if FeO ≤ 0 ∧ 0 < Fe2O3 then Fe2O3 * ((2 * MW_FEO) / MW_FE2O3) else FeO

/-- The `raw` dict of unnormalized mineral weights (lines 44–68), after
reading each oxide with default `0.0` and applying the FeO imputation. -/
def rawMinerals (oxides : Oxides) : List (String × ℚ) :=
  let SiO2 := getOx oxides "SiO2"
  let Al2O3 := getOx oxides "Al2O3"
  let Fe2O3 := getOx oxides "Fe2O3"
  let FeO := imputeFeO (getOx oxides "FeO") Fe2O3
  let MgO := getOx oxides "MgO"
  let CaO := getOx oxides "CaO"
  let Na2O := getOx oxides "Na2O"
  let K2O := getOx oxides "K2O"
  let TiO2 := getOx oxides "TiO2"
  let P2O5 := getOx oxides "P2O5"
  [ ("Quartz (Q)", max 0 (SiO2 - (Al2O3 * 2.0 + CaO + MgO))),
    ("Orthoclase (Or)", K2O * 6.58),
    ("Albite (Ab)", Na2O * 8.52),
    ("Anorthite (An)", CaO * 2.35),
    ("Diopside (Di)", (CaO + MgO) * 1.1),
    ("Olivine (Ol)", (MgO + FeO) * 0.9),
    ("Magnetite (Mt)", Fe2O3 * 1.43),
    ("Ilmenite (Il)", TiO2 * 1.89),
    ("Apatite (Ap)", P2O5 * 3.33) ]

/-- `total_raw = sum(raw.values())` (line 70). -/
def rawTotal (oxides : Oxides) : ℚ :=
  ((rawMinerals oxides).map Prod.snd).sum

/-- The constant `descriptions` dict (lines 73–83). -/
def cipwDescriptions : List (String × String) :=
  [ ("Quartz (Q)", "Silicon dioxide — common in acidic and felsic rocks."),
    ("Orthoclase (Or)", "Potassium feldspar (KAlSi3O8) — common in silicic rocks."),
    ("Albite (Ab)", "Sodium feldspar (NaAlSi3O8) — typical in many silicic rocks."),
    ("Anorthite (An)", "Calcium feldspar (CaAl2Si2O8) — indicates higher Ca content."),
    ("Diopside (Di)", "Calcium–magnesium pyroxene — common in mafic to intermediate rocks."),
    ("Olivine (Ol)", "Mg–Fe silicate — typical of mafic and ultramafic rocks."),
    ("Magnetite (Mt)", "Iron oxide — an indicator of oxidation state (Fe3+)."),
    ("Ilmenite (Il)", "Titanium–iron oxide — indicator of Ti presence."),
    ("Apatite (Ap)", "Calcium phosphate — phosphorus carrier.") ]

/-- `calculate_cipw` (lines 43–85): raw weights, then per-entry
normalization `round((v / total_raw) * 100.0, 4) if total_raw > 0 else 0.0`
(line 71), paired with the constant description catalog. -/
def calculate_cipw (oxides : Oxides) :
    List (String × ℚ) × List (String × String) :=
  let raw := rawMinerals oxides
  let total_raw := rawTotal oxides
  (raw.map fun kv =>
      (kv.1, if 0 < total_raw then round4 (kv.2 / total_raw * 100.0) else 0.0),
   cipwDescriptions)

/-!
## The analysis store

`load_saved_analyses` / `write_saved_analyses` (lines 90–102) persist a
single JSON document mapping analysis names to records.  A saved analysis
record carries a name, an ISO-8601 timestamp string, a note, the oxide
snapshot and the computed result (§3 of the spec); its `oxides` and
`result` fields are flat string-to-number mappings, so the JSON
serialization round-trips it faithfully, and the parsed document is
modelled directly as an association list of records.
-/

/-- A saved analysis record (spec §3 `AnalysisRecord`). -/
structure AnalysisRecord where
  name : String
  timestamp : String
  note : String
  oxides : List (String × ℚ)
  result : List (String × ℚ)
deriving DecidableEq

/-- The persisted document: mapping from name to record (spec §3). -/
abbrev Doc := List (String × AnalysisRecord)

/-- The state of the file at `SAVED_JSON` as `load_saved_analyses`
distinguishes it: the file may be absent (line 91), unreadable (`open` or
the read raising, caught at line 97), readable but not valid JSON
(`json.load` raising, caught at line 97), valid JSON that is not a dict
(line 96), or a well-formed stored document. -/
inductive FileState where
  | absent
  | unreadable
  | malformed
  | parsedNonDict
  | stored (d : Doc)
deriving DecidableEq

/-- `load_saved_analyses` (lines 90–98): returns `{}` when the file does
not exist; otherwise parses it, returning the parsed dict, or `{}` when the
parse result is not a dict or anything raises.  Every branch returns
normally — the bare `except` makes the function total, so no exception
reaches the caller. -/
def load_saved_analyses : FileState → Doc
  | .absent => []
  | .unreadable => []
  | .malformed => []
  | .parsedNonDict => []
  | .stored d => d

/-- `write_saved_analyses` (lines 100–102): serializes the full document
`d` and writes it to `SAVED_JSON`, leaving the file a well-formed stored
document. -/
def write_saved_analyses (d : Doc) : FileState :=
  .stored d

/-- Python dict upsert `d[name] = record`: replace the binding for `k` if
present, else append a new binding. -/
def upsert (k : String) (r : AnalysisRecord) : Doc → Doc
  | [] => [(k, r)]
  | (k', r') :: t => if k' = k then (k, r) :: t else (k', r') :: upsert k r t

/-- Python dict removal `d.pop(name, None)`: drop the binding for `k` when
present (dict keys are unique, so dropping every binding with key `k`
coincides with deleting the one entry), leave the rest untouched. -/
def eraseKey (k : String) (d : Doc) : Doc :=
  d.filter fun p => !(p.1 == k)

/-- Modelled from the spec: `save(record)` of the AnalysisStore contract
(§4.2) — "upserts `record` by `record.name` into the full document and
writes the entire document back".  The operation itself is not present in
`src/streamlit_app.py`; only its two halves `load_saved_analyses` and
`write_saved_analyses` are, and the model composes them as the spec
describes (full read, upsert, full write). -/
def save (r : AnalysisRecord) (fs : FileState) : FileState :=
  write_saved_analyses (upsert r.name r (load_saved_analyses fs))

/-- Modelled from the spec: `delete(name)` of the AnalysisStore contract
(§4.2) — "removes the entry if present; no-op (not an error) if absent".
Not present in `src/streamlit_app.py`; modelled as the full
read-remove-write the spec's store performs. -/
def delete (n : String) (fs : FileState) : FileState :=
  write_saved_analyses (eraseKey n (load_saved_analyses fs))

/-!
## Byte-level model of the write path

Claim C2 concerns what a concurrent reader of `SAVED_JSON` can observe
while `write_saved_analyses` runs.  At that granularity the relevant facts
about lines 100–102 are: `open(SAVED_JSON, "w")` truncates the target file
in place the moment it opens it (no temporary file is involved), and
`json.dump` then writes the serialized text into it incrementally, so at
any moment the file holds some prefix of the new text.
-/

/-- The contents of a file, as a sequence of characters. -/
abbrev FileContent := List Char

/-- The successive contents of the target file observable during
`write_saved_analyses` (lines 100–102), when the file previously held
`old` and the new document serializes to `new`: first the old contents,
then — once `open(SAVED_JSON, "w")` has truncated the file in place —
every prefix of the new text as `json.dump` writes it out. -/
def writeObservable (old new : FileContent) : List FileContent :=
  old :: (List.range (new.length + 1)).map fun n => new.take n

/-- A write step from document `old` to document `new` is atomic for
concurrent readers when every observable intermediate content is the old
document or the new one — never anything half-written (spec §4.2, §9
"atomic replace"). -/
def atomicTrace (old new : FileContent) (trace : List FileContent) : Prop :=
  ∀ s ∈ trace, s = old ∨ s = new

/-- The fixed oxide key set `OXIDES` (line 35 of the source). -/
def OXIDES : List String :=
  ["SiO2", "Al2O3", "Fe2O3", "FeO", "MgO", "CaO", "Na2O", "K2O", "TiO2", "P2O5"]

/-- The same mapping with every key of the ten-oxide set that is missing
from `m` explicitly bound to `0.0` (for claim C8's comparison). -/
def fillMissing (m : Oxides) : Oxides :=
  m ++ (OXIDES.filter fun k => (m.lookup k).isNone).map fun k => (k, 0)

/-- The fixed ordered list of the nine mineral names produced by
`calculate_cipw` (lines 58–68). -/
def mineralNames : List String :=
  ["Quartz (Q)", "Orthoclase (Or)", "Albite (Ab)", "Anorthite (An)",
   "Diopside (Di)", "Olivine (Ol)", "Magnetite (Mt)", "Ilmenite (Il)",
   "Apatite (Ap)"]

/-- The end-to-end sample composition of spec §8, used as a concrete
input by witnesses. -/
def endToEndInput : Oxides :=
  [("SiO2", 60), ("Al2O3", 15), ("Fe2O3", 3), ("FeO", 4), ("MgO", 4),
   ("CaO", 7), ("Na2O", 3), ("K2O", 2), ("TiO2", 1), ("P2O5", 0.5)]

/-- A concrete saved record, used as a witness input for store claims. -/
def sampleRecord : AnalysisRecord :=
  ⟨"a", "2024-01-01T00:00:00", "", [("SiO2", 60)], [("Quartz (Q)", 100)]⟩

/-!
## Helper lemmas
-/

lemma round_mono_rat {x y : ℚ} (h : x ≤ y) : round x ≤ round y := by
  rw [round_eq, round_eq]
  exact Int.floor_le_floor (by linarith)

/-- `round4` moves its argument by at most half an ulp of the fourth
decimal place. -/
lemma abs_round4_sub (q : ℚ) : |round4 q - q| ≤ 1 / 20000 := by
  have h : |q * 10000 - (round (q * 10000) : ℚ)| ≤ 1 / 2 := abs_sub_round (q * 10000)
  have heq : round4 q - q = ((round (q * 10000) : ℚ) - q * 10000) / 10000 := by
    unfold round4; ring
  rw [heq, abs_div, abs_sub_comm, abs_of_pos (by norm_num : (0:ℚ) < 10000)]
  calc |q * 10000 - (round (q * 10000) : ℚ)| / 10000
      ≤ (1 / 2) / 10000 := by
        exact (div_le_div_iff_of_pos_right (by norm_num)).mpr h
    _ = 1 / 20000 := by norm_num

lemma round4_nonneg {q : ℚ} (h : 0 ≤ q) : 0 ≤ round4 q := by
  unfold round4
  have h1 : (0 : ℤ) ≤ round (q * 10000) := by
    have := round_mono_rat (by nlinarith : (0:ℚ) ≤ q * 10000)
    simpa using this
  have h2 : (0 : ℚ) ≤ (round (q * 10000) : ℚ) := by exact_mod_cast h1
  positivity

lemma round4_le_hundred {q : ℚ} (h : q ≤ 100) : round4 q ≤ 100 := by
  unfold round4
  have h1 : round (q * 10000) ≤ round ((1000000 : ℤ) : ℚ) :=
    round_mono_rat (by push_cast; nlinarith)
  rw [round_intCast] at h1
  have h2 : (round (q * 10000) : ℚ) ≤ 1000000 := by exact_mod_cast h1
  linarith

/-- Summing after rounding each entry moves the total by at most half an
ulp per entry. -/
lemma sum_map_round4_sub (l : List ℚ) :
    |(l.map round4).sum - l.sum| ≤ l.length * (1 / 20000) := by
  induction l with
  | nil => simp
  | cons a t ih =>
    simp only [List.map_cons, List.sum_cons, List.length_cons]
    have h1 := abs_round4_sub a
    have h2 : |round4 a + (t.map round4).sum - (a + t.sum)|
        ≤ |round4 a - a| + |(t.map round4).sum - t.sum| := by
      have := abs_add (round4 a - a) ((t.map round4).sum - t.sum)
      calc |round4 a + (t.map round4).sum - (a + t.sum)|
          = |(round4 a - a) + ((t.map round4).sum - t.sum)| := by ring_nf
        _ ≤ _ := this
    calc |round4 a + (t.map round4).sum - (a + t.sum)|
        ≤ |round4 a - a| + |(t.map round4).sum - t.sum| := h2
      _ ≤ 1 / 20000 + t.length * (1 / 20000) := add_le_add h1 ih
      _ = (t.length + 1) * (1 / 20000) := by ring
      _ = ((t.length + 1 : ℕ) : ℚ) * (1 / 20000) := by push_cast; ring

lemma sum_map_div_mul (l : List ℚ) (t c : ℚ) :
    (l.map fun v => v / t * c).sum = l.sum / t * c := by
  induction l with
  | nil => simp
  | cons a tl ih =>
    simp only [List.map_cons, List.sum_cons, ih]
    ring

lemma getOx_nonneg {m : Oxides} (hm : ∀ p ∈ m, 0 ≤ p.2) (k : String) :
    0 ≤ getOx m k := by
  unfold getOx
  induction m with
  | nil => simp
  | cons a t ih =>
    rcases a with ⟨k', v⟩
    rw [List.lookup_cons]
    rcases h : (k == k') with _ | _
    · exact ih fun p hp => hm p (List.mem_cons_of_mem _ hp)
    · exact hm (k', v) (List.mem_cons_self _ _)

lemma imputeFeO_nonneg {FeO Fe2O3 : ℚ} (h : 0 ≤ FeO) :
    0 ≤ imputeFeO FeO Fe2O3 := by
  unfold imputeFeO MW_FEO MW_FE2O3
  split
  · next hc => nlinarith [hc.2]
  · exact h

/-- Given non-negative oxide inputs, every raw mineral weight is
non-negative. -/
lemma rawMinerals_nonneg {m : Oxides} (hm : ∀ p ∈ m, 0 ≤ p.2) :
    ∀ p ∈ rawMinerals m, 0 ≤ p.2 := by
  intro p hp
  have hS := getOx_nonneg hm "SiO2"
  have hA := getOx_nonneg hm "Al2O3"
  have hF3 := getOx_nonneg hm "Fe2O3"
  have hF := @imputeFeO_nonneg (getOx m "FeO") (getOx m "Fe2O3")
    (getOx_nonneg hm "FeO")
  have hMg := getOx_nonneg hm "MgO"
  have hC := getOx_nonneg hm "CaO"
  have hN := getOx_nonneg hm "Na2O"
  have hK := getOx_nonneg hm "K2O"
  have hT := getOx_nonneg hm "TiO2"
  have hP := getOx_nonneg hm "P2O5"
  simp only [rawMinerals, List.mem_cons, List.not_mem_nil, or_false] at hp
  rcases hp with h | h | h | h | h | h | h | h | h <;> subst h <;> simp only <;>
    first
      | exact le_max_left 0 _
      | nlinarith

/-- The raw total is the sum of the nine raw weights, each of which it
therefore dominates (given non-negative inputs). -/
lemma le_rawTotal {m : Oxides} (hm : ∀ p ∈ m, 0 ≤ p.2) :
    ∀ p ∈ rawMinerals m, p.2 ≤ rawTotal m := by
  intro p hp
  have hmem : p.2 ∈ (rawMinerals m).map Prod.snd := List.mem_map_of_mem _ hp
  have hnn : ∀ x ∈ (rawMinerals m).map Prod.snd, 0 ≤ x := by
    intro x hx
    rcases List.mem_map.mp hx with ⟨q, hq, rfl⟩
    exact rawMinerals_nonneg hm q hq
  exact List.single_le_sum hnn _ hmem

lemma rawTotal_nonneg {m : Oxides} (hm : ∀ p ∈ m, 0 ≤ p.2) :
    0 ≤ rawTotal m := by
  unfold rawTotal
  apply List.sum_nonneg
  intro x hx
  rcases List.mem_map.mp hx with ⟨q, hq, rfl⟩
  exact rawMinerals_nonneg hm q hq

lemma lookup_upsert (k : String) (r : AnalysisRecord) (d : Doc) :
    (upsert k r d).lookup k = some r := by
  induction d with
  | nil => simp [upsert, List.lookup_cons]
  | cons a t ih =>
    rcases a with ⟨k', r'⟩
    by_cases h : k' = k
    · simp [upsert, h, List.lookup_cons]
    · have hbeq : (k == k') = false := by
        simp [beq_iff_eq]
        exact fun hkk => h hkk.symm
      simp [upsert, h, List.lookup_cons, hbeq, ih]

lemma lookup_eraseKey (k : String) (d : Doc) :
    (eraseKey k d).lookup k = none := by
  induction d with
  | nil => simp [eraseKey]
  | cons a t ih =>
    rcases a with ⟨k', r'⟩
    by_cases h : k' = k
    · simpa [eraseKey, h] using ih
    · have hbeq : (k == k') = false := by
        simp [beq_iff_eq]
        exact fun hkk => h hkk.symm
      have hbeq' : (k' == k) = false := by simp [beq_iff_eq, h]
      simp only [eraseKey, List.filter_cons, hbeq', Bool.not_false] at *
      simp [List.lookup_cons, hbeq, ih]

lemma eraseKey_of_lookup_none {k : String} {d : Doc}
    (h : d.lookup k = none) : eraseKey k d = d := by
  induction d with
  | nil => rfl
  | cons a t ih =>
    rcases a with ⟨k', r'⟩
    rw [List.lookup_cons] at h
    rcases hbeq : (k == k') with _ | _
    · rw [hbeq] at h
      have h' : t.lookup k = none := h
      have hk : k ≠ k' := beq_eq_false_iff_ne.mp hbeq
      have hne : (k' == k) = false := beq_eq_false_iff_ne.mpr (Ne.symm hk)
      have hstep : eraseKey k ((k', r') :: t) = (k', r') :: eraseKey k t := by
        simp [eraseKey, List.filter_cons, hne]
      rw [hstep, ih h']
    · rw [hbeq] at h
      exact absurd h (by simp)

lemma lookup_append (l₁ l₂ : Oxides) (k : String) :
    (l₁ ++ l₂).lookup k =
      ((l₁.lookup k).rec (l₂.lookup k) fun v => some v : Option ℚ) := by
  induction l₁ with
  | nil => simp
  | cons a t ih =>
    rcases a with ⟨k', v⟩
    rw [List.cons_append, List.lookup_cons, List.lookup_cons]
    rcases hbeq : (k == k') with _ | _ <;> simp [ih]

lemma lookup_zero_fill (ks : List String) (k : String) :
    (((ks.map fun k' => (k', (0:ℚ))).lookup k).getD 0 : ℚ) = 0 := by
  induction ks with
  | nil => simp
  | cons a t ih =>
    rw [List.map_cons, List.lookup_cons]
    rcases hbeq : (k == a) with _ | _ <;> simp [ih]

/-- Filling in explicit `0.0` bindings for the missing oxide keys does not
change any defaulted lookup. -/
lemma getOx_fillMissing (m : Oxides) (k : String) :
    getOx (fillMissing m) k = getOx m k := by
  unfold getOx fillMissing
  rw [lookup_append]
  rcases h : m.lookup k with _ | v
  · simp only []
    exact lookup_zero_fill _ k
  · rfl

lemma rawMinerals_fillMissing (m : Oxides) :
    rawMinerals (fillMissing m) = rawMinerals m := by
  simp only [rawMinerals, getOx_fillMissing]

/-!
## Claims
-/

/-- C3: whenever the FeO value is non-positive and the Fe2O3 value is
strictly positive, `calculate_cipw` uses the imputed value
`FeO = Fe2O3 * (2 * 71.844 / 159.69)` in the raw-weight formulas (FeO only
occurs in the Olivine formula); otherwise it uses FeO exactly as given;
the Fe2O3 value used in the Magnetite formula is never altered; and for
`{Fe2O3: 10, FeO: 0}` the imputed FeO is approximately `8.9979` (the
claim's figure of `9.0007` is refuted by `C3_counterexample`). -/
theorem C3_iron_speciation (m : Oxides) :
    (getOx m "FeO" ≤ 0 ∧ 0 < getOx m "Fe2O3" →
      (rawMinerals m).lookup "Olivine (Ol)" =
        some ((getOx m "MgO" + getOx m "Fe2O3" * (2 * 71.844 / 159.69)) * 0.9)) ∧
    (¬ (getOx m "FeO" ≤ 0 ∧ 0 < getOx m "Fe2O3") →
      (rawMinerals m).lookup "Olivine (Ol)" =
        some ((getOx m "MgO" + getOx m "FeO") * 0.9)) ∧
    (rawMinerals m).lookup "Magnetite (Mt)" = some (getOx m "Fe2O3" * 1.43) ∧
    |imputeFeO 0 10 - 8.9979| ≤ 1 / 1000 := by
  refine ⟨?_, ?_, rfl, by rw [imputeFeO, if_pos (by norm_num)]; rw [MW_FEO, MW_FE2O3, abs_le]; norm_num⟩
  · intro h
    show some ((getOx m "MgO" + imputeFeO (getOx m "FeO") (getOx m "Fe2O3")) * 0.9) = _
    rw [imputeFeO, if_pos h, MW_FEO, MW_FE2O3]
  · intro h
    show some ((getOx m "MgO" + imputeFeO (getOx m "FeO") (getOx m "Fe2O3")) * 0.9) = _
    rw [imputeFeO, if_neg h]

/-- Witness for C3 at the concrete input `{Fe2O3: 10}` (so FeO is the
default `0`). -/
theorem C3_witness :
    (getOx [("Fe2O3", 10)] "FeO" ≤ 0 ∧ 0 < getOx [("Fe2O3", 10)] "Fe2O3") ∧
    (rawMinerals [("Fe2O3", 10)]).lookup "Olivine (Ol)" =
      some ((getOx [("Fe2O3", 10)] "MgO" +
        getOx [("Fe2O3", 10)] "Fe2O3" * (2 * 71.844 / 159.69)) * 0.9) :=
  ⟨by decide, (C3_iron_speciation _).1 (by decide)⟩

/-- C3 counterexample: the claim's concrete figure is wrong — for
`{Fe2O3: 10, FeO: 0}` the imputed FeO is `1436.88 / 159.69 ≈ 8.99793`,
which is not approximately `9.0007` (it misses it by more than `2e-3`,
beyond any rounding tolerance used in the spec). -/
theorem C3_counterexample :
    imputeFeO 0 10 = 1436.88 / 159.69 ∧ |imputeFeO 0 10 - 9.0007| > 2 / 1000 := by
  rw [imputeFeO, if_pos (by norm_num), MW_FEO, MW_FE2O3]
  constructor
  · norm_num
  · rw [abs_sub_comm, abs_of_pos (by norm_num)]
    norm_num

/-- C4: the raw Quartz weight is `max(0, SiO2 − (2·Al2O3 + CaO + MgO))`,
clipped at zero; each of the other eight raw weights is its unclipped
linear formula; and given non-negative oxide inputs no raw weight is
negative. -/
theorem C4_quartz_clip (m : Oxides) :
    (rawMinerals m).lookup "Quartz (Q)" =
      some (max 0 (getOx m "SiO2" -
        (2 * getOx m "Al2O3" + getOx m "CaO" + getOx m "MgO"))) ∧
    (rawMinerals m).lookup "Orthoclase (Or)" = some (getOx m "K2O" * 6.58) ∧
    (rawMinerals m).lookup "Albite (Ab)" = some (getOx m "Na2O" * 8.52) ∧
    (rawMinerals m).lookup "Anorthite (An)" = some (getOx m "CaO" * 2.35) ∧
    (rawMinerals m).lookup "Diopside (Di)" =
      some ((getOx m "CaO" + getOx m "MgO") * 1.1) ∧
    (rawMinerals m).lookup "Olivine (Ol)" =
      some ((getOx m "MgO" + imputeFeO (getOx m "FeO") (getOx m "Fe2O3")) * 0.9) ∧
    (rawMinerals m).lookup "Magnetite (Mt)" = some (getOx m "Fe2O3" * 1.43) ∧
    (rawMinerals m).lookup "Ilmenite (Il)" = some (getOx m "TiO2" * 1.89) ∧
    (rawMinerals m).lookup "Apatite (Ap)" = some (getOx m "P2O5" * 3.33) ∧
    ((∀ p ∈ m, 0 ≤ p.2) → ∀ p ∈ rawMinerals m, 0 ≤ p.2) := by
  refine ⟨?_, rfl, rfl, rfl, rfl, rfl, rfl, rfl, rfl, fun hm => rawMinerals_nonneg hm⟩
  show some (max 0 (getOx m "SiO2" -
      (getOx m "Al2O3" * 2.0 + getOx m "CaO" + getOx m "MgO"))) = _
  congr 2
  ring

/-- Witness for C4 at the spec's concrete input
`{SiO2: 40, Al2O3: 30, CaO: 10, MgO: 5}`: the hypothesis holds, no raw
weight is negative, and the raw Quartz weight is clipped to `0`. -/
theorem C4_witness :
    (∀ p ∈ ([("SiO2", 40), ("Al2O3", 30), ("CaO", 10), ("MgO", 5)] : Oxides),
      0 ≤ p.2) ∧
    (∀ p ∈ rawMinerals [("SiO2", 40), ("Al2O3", 30), ("CaO", 10), ("MgO", 5)],
      0 ≤ p.2) ∧
    (rawMinerals [("SiO2", 40), ("Al2O3", 30), ("CaO", 10), ("MgO", 5)]).lookup
      "Quartz (Q)" = some 0 :=
  ⟨by decide,
   (C4_quartz_clip _).2.2.2.2.2.2.2.2.2 (by decide),
   by
     have h : (rawMinerals
         [("SiO2", 40), ("Al2O3", 30), ("CaO", 10), ("MgO", 5)]).lookup
         "Quartz (Q)" = some (max 0 (40 - (30 * 2.0 + 10 + 5))) := rfl
     rw [h]
     exact congrArg some (by norm_num)⟩

/-- C8: `calculate_cipw` treats any oxide key missing from the input as
`0.0`: its result equals the result on the same mapping with every missing
key of the ten-oxide set explicitly bound to `0.0`. -/
theorem C8_missing_default (m : Oxides) :
    calculate_cipw m = calculate_cipw (fillMissing m) := by
  unfold calculate_cipw rawTotal
  rw [rawMinerals_fillMissing]

/-- C9: for every input, the mineral list returned by `calculate_cipw` has
exactly the nine fixed mineral keys in their fixed order, and the returned
description mapping is the constant catalog over that same key set,
independent of the input. -/
theorem C9_fixed_keys (m : Oxides) :
    (calculate_cipw m).1.map Prod.fst = mineralNames ∧
    (calculate_cipw m).2 = cipwDescriptions ∧
    cipwDescriptions.map Prod.fst = mineralNames :=
  ⟨rfl, rfl, rfl⟩

/-- C1: for every non-negative oxide composition, if the sum of the nine
raw weights is strictly positive then each output weight is
`round4(raw / total × 100)` and the nine outputs sum to `100` within
`1e-3`; if that sum is exactly `0`, every output weight is exactly `0`
(the guarded branch, no division). -/
theorem C1_normalization (m : Oxides) (hm : ∀ p ∈ m, 0 ≤ p.2) :
    (0 < rawTotal m →
      (calculate_cipw m).1 = (rawMinerals m).map
        (fun kv => (kv.1, round4 (kv.2 / rawTotal m * 100.0))) ∧
      |((calculate_cipw m).1.map Prod.snd).sum - 100| ≤ 1 / 1000) ∧
    (rawTotal m = 0 → ∀ p ∈ (calculate_cipw m).1, p.2 = 0) := by
  constructor
  · intro ht
    have hmap : (calculate_cipw m).1 = (rawMinerals m).map
        (fun kv => (kv.1, round4 (kv.2 / rawTotal m * 100.0))) := by
      simp only [calculate_cipw, if_pos ht]
    refine ⟨hmap, ?_⟩
    have heq : ((calculate_cipw m).1.map Prod.snd).sum =
        ((((rawMinerals m).map Prod.snd).map
          (fun v => v / rawTotal m * 100.0)).map round4).sum := by
      rw [hmap]
      simp only [List.map_map]
      rfl
    have hsum : (((rawMinerals m).map Prod.snd).map
        (fun v => v / rawTotal m * 100.0)).sum = 100 := by
      rw [sum_map_div_mul]
      have hts : ((rawMinerals m).map Prod.snd).sum = rawTotal m := rfl
      rw [hts, div_self (ne_of_gt ht)]
      norm_num
    have hlen : (((rawMinerals m).map Prod.snd).map
        (fun v => v / rawTotal m * 100.0)).length = 9 := by
      simp [rawMinerals]
    have hbound := sum_map_round4_sub (((rawMinerals m).map Prod.snd).map
        (fun v => v / rawTotal m * 100.0))
    rw [hsum, hlen] at hbound
    rw [heq]
    exact hbound.trans (by norm_num)
  · intro ht p hp
    simp only [calculate_cipw, ht, lt_self_iff_false, if_false] at hp
    rcases List.mem_map.mp hp with ⟨kv, _, rfl⟩
    norm_num

/-- Witness for C1 at the spec's end-to-end composition. -/
theorem C1_witness :
    (∀ p ∈ endToEndInput, 0 ≤ p.2) ∧
    ((0 < rawTotal endToEndInput →
      (calculate_cipw endToEndInput).1 = (rawMinerals endToEndInput).map
        (fun kv => (kv.1, round4 (kv.2 / rawTotal endToEndInput * 100.0))) ∧
      |((calculate_cipw endToEndInput).1.map Prod.snd).sum - 100| ≤ 1 / 1000) ∧
    (rawTotal endToEndInput = 0 → ∀ p ∈ (calculate_cipw endToEndInput).1, p.2 = 0)) :=
  ⟨by norm_num [endToEndInput], C1_normalization endToEndInput (by norm_num [endToEndInput])⟩

/-- C10: for every non-negative oxide composition, each raw weight is
non-negative and no raw weight exceeds the raw total; and every mineral
weight returned by `calculate_cipw` lies in `[0, 100]`. -/
theorem C10_weight_range (m : Oxides) (hm : ∀ p ∈ m, 0 ≤ p.2) :
    (∀ p ∈ rawMinerals m, 0 ≤ p.2 ∧ p.2 ≤ rawTotal m) ∧
    (∀ p ∈ (calculate_cipw m).1, 0 ≤ p.2 ∧ p.2 ≤ 100) := by
  refine ⟨fun p hp => ⟨rawMinerals_nonneg hm p hp, le_rawTotal hm p hp⟩, ?_⟩
  intro p hp
  simp only [calculate_cipw] at hp
  rcases List.mem_map.mp hp with ⟨kv, hkv, rfl⟩
  show 0 ≤ (if 0 < rawTotal m then round4 (kv.2 / rawTotal m * 100.0) else 0.0) ∧
    (if 0 < rawTotal m then round4 (kv.2 / rawTotal m * 100.0) else 0.0) ≤ 100
  by_cases ht : 0 < rawTotal m
  · rw [if_pos ht]
    have h0 : 0 ≤ kv.2 := rawMinerals_nonneg hm kv hkv
    have h1 : kv.2 ≤ rawTotal m := le_rawTotal hm kv hkv
    constructor
    · exact round4_nonneg
        (mul_nonneg (div_nonneg h0 ht.le) (by norm_num))
    · apply round4_le_hundred
      have hd : kv.2 / rawTotal m ≤ 1 := (div_le_one ht).mpr h1
      nlinarith
  · rw [if_neg ht]
    norm_num

/-- Witness for C10 at the spec's end-to-end composition. -/
theorem C10_witness :
    (∀ p ∈ endToEndInput, 0 ≤ p.2) ∧
    ((∀ p ∈ rawMinerals endToEndInput, 0 ≤ p.2 ∧ p.2 ≤ rawTotal endToEndInput) ∧
     (∀ p ∈ (calculate_cipw endToEndInput).1, 0 ≤ p.2 ∧ p.2 ≤ 100)) :=
  ⟨by norm_num [endToEndInput], C10_weight_range endToEndInput (by norm_num [endToEndInput])⟩



/-- C5: `load_saved_analyses` returns an empty mapping whenever the
persisted document is absent, unreadable, or not well-formed (not valid
JSON, or valid JSON that is not a dict), and — being a total function whose
`except` branch absorbs every read or parse failure — never raises to the
caller in those cases. -/
theorem C5_load_fail_soft (fs : FileState)
    (h : fs = .absent ∨ fs = .unreadable ∨ fs = .malformed ∨
      fs = .parsedNonDict) :
    load_saved_analyses fs = [] := by
  rcases h with h | h | h | h <;> subst h <;> rfl

/-- Witness for C5 at the malformed-document state. -/
theorem C5_witness :
    (FileState.malformed = FileState.absent ∨
      FileState.malformed = FileState.unreadable ∨
      FileState.malformed = FileState.malformed ∨
      FileState.malformed = FileState.parsedNonDict) ∧
    load_saved_analyses FileState.malformed = [] :=
  ⟨Or.inr (Or.inr (Or.inl rfl)),
   C5_load_fail_soft FileState.malformed (Or.inr (Or.inr (Or.inl rfl)))⟩

/-- C6: saving a record and then loading the store yields a mapping whose
entry for `record.name` is the saved record itself, field by field. -/
theorem C6_round_trip (r : AnalysisRecord) (fs : FileState) :
    (load_saved_analyses (save r fs)).lookup r.name = some r :=
  lookup_upsert r.name r (load_saved_analyses fs)

/-- C7: after `delete name` there is no entry for `name`; and when `name`
was absent the delete is a no-op — the loaded document is unchanged (and
being a total function, `delete` does not raise). -/
theorem C7_delete_noop (n : String) (fs : FileState) :
    (load_saved_analyses (delete n fs)).lookup n = none ∧
    ((load_saved_analyses fs).lookup n = none →
      load_saved_analyses (delete n fs) = load_saved_analyses fs) :=
  ⟨lookup_eraseKey n (load_saved_analyses fs),
   fun h => eraseKey_of_lookup_none h⟩

/-- Witness for C7: deleting the absent name `"nonexistent"` from a store
holding one record leaves the loaded document unchanged. -/
theorem C7_witness :
    (load_saved_analyses (delete "nonexistent"
      (FileState.stored [("a", sampleRecord)]))).lookup "nonexistent" = none ∧
    (load_saved_analyses
      (FileState.stored [("a", sampleRecord)])).lookup "nonexistent" = none ∧
    load_saved_analyses (delete "nonexistent"
      (FileState.stored [("a", sampleRecord)])) =
      load_saved_analyses (FileState.stored [("a", sampleRecord)]) :=
  ⟨(C7_delete_noop "nonexistent" (FileState.stored [("a", sampleRecord)])).1,
   by decide,
   (C7_delete_noop "nonexistent" (FileState.stored [("a", sampleRecord)])).2
     (by decide)⟩

/-- C2 (amended): `write_saved_analyses` does not write atomically — it
truncates the target in place and writes the new text incrementally, so
whenever the old contents and the new serialized text are both nonempty a
concurrent reader can observe the half-written (here: truncated-empty)
document, which is neither the old document nor the new one. -/
theorem C2_write_not_atomic (old new : FileContent)
    (hold : old ≠ []) (hnew : new ≠ []) :
    [] ∈ writeObservable old new ∧
    ¬ atomicTrace old new (writeObservable old new) := by
  have hmem : ([] : FileContent) ∈ writeObservable old new := by
    unfold writeObservable
    refine List.mem_cons_of_mem _ (List.mem_map.mpr ⟨0, ?_, rfl⟩)
    simp
  refine ⟨hmem, fun hat => ?_⟩
  rcases hat [] hmem with h | h
  · exact hold h.symm
  · exact hnew h.symm

/-- Witness for C2's amended theorem at a concrete pair of documents: the
old contents `{}` and the new serialized text `{"A": 1}`. -/
theorem C2_witness :
    ("\x7b\x7d".toList ≠ ([] : FileContent)) ∧
    ("\x7b\"A\": 1\x7d".toList ≠ ([] : FileContent)) ∧
    ([] ∈ writeObservable "\x7b\x7d".toList "\x7b\"A\": 1\x7d".toList ∧
      ¬ atomicTrace "\x7b\x7d".toList "\x7b\"A\": 1\x7d".toList
        (writeObservable "\x7b\x7d".toList "\x7b\"A\": 1\x7d".toList)) :=
  ⟨by decide, by decide,
   C2_write_not_atomic _ _ (by decide) (by decide)⟩

/-- C2 counterexample: the claim as stated — that every save writes the
document atomically, a concurrent reader only ever observing the old or
the new document — is false at the concrete write from old contents `{}`
to new text `{"A": 1}`: the trace contains the truncated empty file. -/
theorem C2_counterexample :
    ¬ atomicTrace "\x7b\x7d".toList "\x7b\"A\": 1\x7d".toList
      (writeObservable "\x7b\x7d".toList "\x7b\"A\": 1\x7d".toList) := by
  intro hat
  have hmem : ([] : FileContent) ∈
      writeObservable "\x7b\x7d".toList "\x7b\"A\": 1\x7d".toList := by
    unfold writeObservable
    refine List.mem_cons_of_mem _ (List.mem_map.mpr ⟨0, ?_, rfl⟩)
    simp
  rcases hat [] hmem with h | h <;> exact absurd h (by decide)
